import Mathlib

/-!
Verification of the feature-extraction pipeline of
`skimage/segmentation/trainable_segmentation.py` in a shallow embedding.

Modelling conventions:
* numpy floating-point arithmetic is idealised as exact rational (`ℚ`)
  arithmetic; the per-pixel Hessian eigen-solver, whose closed form needs a
  square root, is modelled over `ℝ`.
* the Gaussian scale axis is represented in log2 space: a scale `sigma` is
  represented by its exponent `e = log2 sigma`, which is exact on the inputs
  the spec's examples use (powers of two).  `np.logspace(a, b, num, base=2)`
  then becomes an affine `linspace` on exponents.
* 2-D arrays are rectangular `List (List ℚ)` grids, 3-D arrays are lists of
  grids; out-of-range reads use `getD` defaults, which are never reached on
  the rectangular inputs the theorems quantify over.
* the thread/dask parallel map over scales is modelled by an explicit task
  completion schedule (`order : List ℕ`): tasks finish in an arbitrary order
  but results are collected keyed by task index, exactly as
  `ThreadPoolExecutor.map` / `dask.compute` return them in argument order.
-/

namespace TrainableSeg

/-- Sequences a list of optional values; `none` if any element is `none`.
Models the fail-fast aggregation of a list of task results. -/
def collectSome {β : Type} : List (Option β) → Option (List β)
  | [] => some []
  | o :: os => o.bind (fun b => (collectSome os).map (fun bs => b :: bs))

theorem collectSome_map_some {α β : Type} {l : List α} {g : α → Option β} {h : α → β}
    (H : ∀ a ∈ l, g a = some (h a)) : collectSome (l.map g) = some (l.map h) := by
  induction l with
  | nil => rfl
  | cons x xs ih =>
    have hx : g x = some (h x) := H x (List.mem_cons_self x xs)
    have hxs : collectSome (xs.map g) = some (xs.map h) :=
      ih (fun a ha => H a (List.mem_cons_of_mem x ha))
    simp [collectSome, hx, hxs]

/-- Python `int()` applied to an exact rational: truncation toward zero. -/
def ratTrunc (q : ℚ) : ℤ := if 0 ≤ q then ⌊q⌋ else ⌈q⌉

/-- Number of scales, `int(np.log2(sigma_max) - np.log2(sigma_min) + 1)` from
the source, written on the log2 axis: `a = log2 sigma_min`,
`b = log2 sigma_max`. -/
def numScales (a b : ℚ) : ℤ := ratTrunc (b - a + 1)

/-- Exact model of `np.linspace(a, b, num=n, endpoint=True)` on rationals. -/
def linspace (a b : ℚ) (n : ℕ) : List ℚ :=
  if n = 1 then [a]
  else (List.range n).map (fun i : ℕ => a + (i : ℚ) * (b - a) / ((n : ℚ) - 1))

/-- The descending scale list (log2 exponents) built by the source:
`np.logspace(log2 smin, log2 smax, num, base=2, endpoint=True)[::-1]`,
with the `base=2` power postponed (we stay on the exponent axis). -/
def scaleList (a b : ℚ) : List ℚ := (linspace a b (numScales a b).toNat).reverse

/-- Scale-sequence generation including numpy's failure mode: `np.logspace`
raises when the computed sample count is negative (`none` here); otherwise it
returns the (possibly empty) descending sequence.  The source performs no
validation of its own. -/
def scaleSequenceE (a b : ℚ) : Option (List ℚ) :=
  if numScales a b < 0 then none else some (scaleList a b)

/-- Length of the scale sequence actually used by the pipeline. -/
def scaleLen (a b : ℚ) : ℕ := ((scaleSequenceE a b).getD []).length

/-- Maps an integer log2 exponent back to the sigma value `2 ^ e`; `none` on a
non-integer exponent (where the sigma is irrational). -/
def pow2exp (e : ℚ) : Option ℚ := if e.den = 1 then some ((2 : ℚ) ^ e.num) else none

/-- Sigma values of a list of integer log2 exponents. -/
def sigmasOfExponents (l : List ℚ) : Option (List ℚ) := collectSome (l.map pow2exp)

theorem linspace_length (a b : ℚ) (n : ℕ) : (linspace a b n).length = n := by
  unfold linspace
  split
  · simp [*]
  · rw [List.length_map, List.length_range]

theorem scaleList_length (a b : ℚ) : (scaleList a b).length = (numScales a b).toNat := by
  simp [scaleList, linspace_length]

theorem numScales_of_le {a b : ℚ} (hab : a ≤ b) : numScales a b = ⌊b - a⌋ + 1 := by
  unfold numScales ratTrunc
  rw [if_pos (by linarith : (0 : ℚ) ≤ b - a + 1)]
  exact Int.floor_add_one (b - a)

theorem scaleSequenceE_of_le {a b : ℚ} (hab : a ≤ b) :
    scaleSequenceE a b = some (scaleList a b) := by
  have h0 : 0 ≤ ⌊b - a⌋ := Int.floor_nonneg.mpr (by linarith)
  have : ¬ numScales a b < 0 := by rw [numScales_of_le hab]; omega
  simp [scaleSequenceE, this]

theorem scaleList_length_of_le {a b : ℚ} (hab : a ≤ b) :
    (scaleList a b).length = (⌊b - a⌋).toNat + 1 := by
  have h0 : 0 ≤ ⌊b - a⌋ := Int.floor_nonneg.mpr (by linarith)
  rw [scaleList_length, numScales_of_le hab]
  omega

theorem chain'_map_range {β : Type} (g : ℕ → β) (R : β → β → Prop) (n : ℕ)
    (h : ∀ i : ℕ, i + 1 < n → R (g i) (g (i + 1))) :
    List.Chain' R ((List.range n).map g) := by
  cases n with
  | zero => simp
  | succ m =>
    rw [List.chain'_map, List.chain'_range_succ]
    intro i hi
    exact h i (by omega)

theorem one_le_sub_of_two_le_numScales {a b : ℚ} (hab : a ≤ b)
    (h2 : 2 ≤ (numScales a b).toNat) : 1 ≤ b - a := by
  rw [numScales_of_le hab] at h2
  have h1 : 1 ≤ ⌊b - a⌋ := by omega
  have := Int.le_floor.mp h1
  exact_mod_cast this

theorem chain'_map_range_reverse {β : Type} (g : ℕ → β) (R : β → β → Prop) (n : ℕ)
    (h : ∀ i : ℕ, i + 1 < n → R (g (i + 1)) (g i)) :
    List.Chain' R (((List.range n).map g).reverse) := by
  rw [List.chain'_reverse]
  apply chain'_map_range
  intro i hi
  exact h i hi

theorem scaleList_descending {a b : ℚ} (hab : a ≤ b) :
    List.Chain' (· > ·) (scaleList a b) := by
  unfold scaleList
  by_cases h1 : (numScales a b).toNat = 1
  · simp [linspace, h1]
  · rw [linspace, if_neg h1]
    apply chain'_map_range_reverse
    intro i hi
    have h2 : 2 ≤ (numScales a b).toNat := by omega
    have hba : 1 ≤ b - a := one_le_sub_of_two_le_numScales hab h2
    have hnq : (2 : ℚ) ≤ ((numScales a b).toNat : ℚ) := by exact_mod_cast h2
    have hstep : (0 : ℚ) < (b - a) / (((numScales a b).toNat : ℚ) - 1) :=
      div_pos (by linarith) (by linarith)
    show a + ((i + 1 : ℕ) : ℚ) * (b - a) / (((numScales a b).toNat : ℚ) - 1)
        > a + (i : ℚ) * (b - a) / (((numScales a b).toNat : ℚ) - 1)
    push_cast
    have key : ((i : ℚ) + 1) * (b - a) / (((numScales a b).toNat : ℚ) - 1)
        = (i : ℚ) * (b - a) / (((numScales a b).toNat : ℚ) - 1)
          + (b - a) / (((numScales a b).toNat : ℚ) - 1) := by ring
    rw [key]
    linarith

theorem scaleList_spacing {a b : ℚ} (h2 : 2 ≤ (scaleList a b).length) :
    List.Chain' (fun x y => x - y = (b - a) / (((scaleList a b).length : ℚ) - 1))
      (scaleList a b) := by
  rw [scaleList_length] at h2 ⊢
  unfold scaleList
  rw [linspace, if_neg (by omega : ¬ (numScales a b).toNat = 1)]
  apply chain'_map_range_reverse
  intro i hi
  show (a + ((i + 1 : ℕ) : ℚ) * (b - a) / (((numScales a b).toNat : ℚ) - 1))
      - (a + (i : ℚ) * (b - a) / (((numScales a b).toNat : ℚ) - 1))
      = (b - a) / (((numScales a b).toNat : ℚ) - 1)
  push_cast
  ring

theorem scaleList_getLast? {a b : ℚ} (hab : a ≤ b) :
    (scaleList a b).getLast? = some a := by
  unfold scaleList
  rw [List.getLast?_reverse]
  have h1 : 1 ≤ (numScales a b).toNat := by
    have h0 : 0 ≤ ⌊b - a⌋ := Int.floor_nonneg.mpr (by linarith)
    rw [numScales_of_le hab]; omega
  by_cases hone : (numScales a b).toNat = 1
  · simp [linspace, hone]
  · rw [linspace, if_neg hone]
    obtain ⟨m, hm⟩ : ∃ m, (numScales a b).toNat = m + 1 :=
      ⟨(numScales a b).toNat - 1, by omega⟩
    rw [hm, List.range_succ_eq_map]
    simp

theorem scaleList_head? {a b : ℚ} (h2 : 2 ≤ (scaleList a b).length) :
    (scaleList a b).head? = some b := by
  rw [scaleList_length] at h2
  unfold scaleList
  rw [List.head?_reverse]
  rw [linspace, if_neg (by omega : ¬ (numScales a b).toNat = 1)]
  obtain ⟨m, hm⟩ : ∃ m, (numScales a b).toNat = m + 1 :=
    ⟨(numScales a b).toNat - 1, by omega⟩
  rw [hm, List.range_succ, List.map_append, List.map_singleton, List.getLast?_concat]
  have hm1 : 1 ≤ m := by omega
  have hmne : ((m : ℚ)) ≠ 0 := by
    have : (1 : ℚ) ≤ (m : ℚ) := by exact_mod_cast hm1
    linarith
  congr 1
  have hcast : (((m + 1 : ℕ) : ℚ)) - 1 = (m : ℚ) := by push_cast; ring
  rw [hcast]
  field_simp

theorem scaleList_of_numScales_nonpos {a b : ℚ} (h : numScales a b ≤ 0) :
    scaleList a b = [] := by
  have : (numScales a b).toNat = 0 := by omega
  rw [scaleList, this]
  simp [linspace]

/-- C4 (amended): for valid bounds (log2 exponents `a ≤ b`, i.e.
`sigma_min ≤ sigma_max`) the scale sequence has exactly
`⌊log2 sigma_max - log2 sigma_min⌋ + 1` entries, is strictly descending, and
always ends at `sigma_min`.  When it has at least two entries it also starts
at `sigma_max` and consecutive log2 exponents differ by the constant step
`(b - a) / (count - 1)` — a sigma-ratio of exactly 2 only when `b - a` is an
integer, which is what the counterexample forces us to weaken.  When it has a
single entry that entry is `sigma_min` (not `sigma_max`).  The spec's two
concrete examples (`[4.0, 2.0, 1.0]` and `[2.0]`) hold. -/
theorem C4_scale_sampler_amended :
    (∀ a b : ℚ, a ≤ b →
      scaleSequenceE a b = some (scaleList a b) ∧
      (scaleList a b).length = (⌊b - a⌋).toNat + 1 ∧
      List.Chain' (· > ·) (scaleList a b) ∧
      (scaleList a b).getLast? = some a ∧
      (2 ≤ (scaleList a b).length → (scaleList a b).head? = some b ∧
        List.Chain' (fun x y => x - y = (b - a) / (((scaleList a b).length : ℚ) - 1))
          (scaleList a b)) ∧
      ((scaleList a b).length = 1 → scaleList a b = [a])) ∧
    scaleSequenceE 0 2 = some [2, 1, 0] ∧
    sigmasOfExponents [2, 1, 0] = some [4, 2, 1] ∧
    scaleSequenceE 1 1 = some [1] ∧
    sigmasOfExponents [1] = some [2] := by
  refine ⟨fun a b hab => ⟨scaleSequenceE_of_le hab, scaleList_length_of_le hab,
      scaleList_descending hab, scaleList_getLast? hab,
      fun h2 => ⟨scaleList_head? h2, scaleList_spacing h2⟩, fun h1 => ?_⟩, ?_, ?_, ?_, ?_⟩
  · rw [scaleList_length] at h1
    rw [scaleList, h1]
    simp [linspace]
  · have h : numScales 0 2 = 3 := by norm_num [numScales, ratTrunc]
    rw [scaleSequenceE, scaleList, h]
    norm_num [linspace, List.range_succ, show ((3 : ℤ)).toNat = 3 from rfl]
  · norm_num [sigmasOfExponents, pow2exp, collectSome]
  · have h : numScales 1 1 = 1 := by norm_num [numScales, ratTrunc]
    rw [scaleSequenceE, scaleList, h]
    norm_num [linspace, show ((1 : ℤ)).toNat = 1 from rfl]
  · norm_num [sigmasOfExponents, pow2exp, collectSome]

/-- Witness for C4: the amended statement applied at the concrete valid bounds
`a = 0, b = 2` (`sigma_min = 1`, `sigma_max = 4`). -/
theorem C4_scale_sampler_witness :
    (0 : ℚ) ≤ (2 : ℚ) ∧
      (scaleSequenceE 0 2 = some (scaleList 0 2) ∧
       (scaleList 0 2).length = (⌊(2 : ℚ) - 0⌋).toNat + 1 ∧
       List.Chain' (· > ·) (scaleList 0 2) ∧
       (scaleList 0 2).getLast? = some 0 ∧
       (2 ≤ (scaleList 0 2).length → (scaleList 0 2).head? = some 2 ∧
         List.Chain' (fun x y => x - y = ((2 : ℚ) - 0) / (((scaleList 0 2).length : ℚ) - 1))
           (scaleList 0 2)) ∧
       ((scaleList 0 2).length = 1 → scaleList 0 2 = [0])) :=
  ⟨by norm_num, C4_scale_sampler_amended.1 0 2 (by norm_num)⟩

/-- Counterexample for C4 as stated: with `a = 0, b = 3/2` (`sigma_min = 1`,
`sigma_max = 2 * sqrt 2`, a legal input) the two produced exponents are
`[3/2, 0]`, whose gap is `3/2`, not `1` — the sigma ratio is `2^(3/2)`,
not 2; and with `a = 0, b = 1/2` the single produced exponent is `0`, so the
`sigma_max` endpoint is not included in the sequence. -/
theorem C4_scale_sampler_counterexample :
    (scaleSequenceE 0 (3/2)).getD [] = [3/2, 0] ∧
    ((scaleSequenceE 0 (3/2)).getD []).getD 0 0
      - ((scaleSequenceE 0 (3/2)).getD []).getD 1 0 ≠ 1 ∧
    (scaleSequenceE 0 (1/2)).getD [] = [0] ∧
    ((scaleSequenceE 0 (1/2)).getD []).head? ≠ some (1/2) := by
  have e1 : scaleSequenceE 0 (3/2) = some [3/2, 0] := by
    have h : numScales 0 (3/2) = 2 := by norm_num [numScales, ratTrunc]
    rw [scaleSequenceE, scaleList, h]
    norm_num [linspace, List.range_succ, show ((2 : ℤ)).toNat = 2 from rfl]
  have e2 : scaleSequenceE 0 (1/2) = some [0] := by
    have h : numScales 0 (1/2) = 1 := by norm_num [numScales, ratTrunc]
    rw [scaleSequenceE, scaleList, h]
    norm_num [linspace, show ((1 : ℤ)).toNat = 1 from rfl]
  rw [e1, e2]
  norm_num

/-- C8 (amended): the source performs no sigma validation of its own.  With
`sigma_max < sigma_min` (log2 exponents `b < a`) the scale-sequence generation
fails (numpy rejects a negative sample count) exactly when
`log2 sigma_max - log2 sigma_min ≤ -2`; when `-2 < b - a < 0` it silently
returns an empty scale sequence instead of failing. -/
theorem C8_invalid_sigma_amended : ∀ a b : ℚ, b < a →
    ((scaleSequenceE a b = none ↔ b - a ≤ -2) ∧
     (-2 < b - a → scaleSequenceE a b = some [])) := by
  intro a b hba
  have hnone : scaleSequenceE a b = none ↔ numScales a b < 0 := by
    unfold scaleSequenceE
    by_cases h : numScales a b < 0
    · simp [h]
    · simp [h]
  have hq : numScales a b < 0 ↔ b - a ≤ -2 := by
    unfold numScales ratTrunc
    by_cases h0 : (0 : ℚ) ≤ b - a + 1
    · rw [if_pos h0]
      have hge : 0 ≤ ⌊b - a + 1⌋ := Int.floor_nonneg.mpr h0
      constructor
      · intro h; omega
      · intro h; exfalso; linarith
    · rw [if_neg h0]
      push_neg at h0
      constructor
      · intro h
        have h1 : ⌈b - a + 1⌉ ≤ -1 := by omega
        have h2 := Int.ceil_le.mp h1
        push_cast at h2
        linarith
      · intro h
        have h1 : b - a + 1 ≤ ((-1 : ℤ) : ℚ) := by push_cast; linarith
        have h2 := Int.ceil_le.mpr h1
        omega
  constructor
  · rw [hnone, hq]
  · intro hgt
    have hz : numScales a b = 0 := by
      unfold numScales ratTrunc
      by_cases h0 : (0 : ℚ) ≤ b - a + 1
      · rw [if_pos h0]
        have h1 : 0 ≤ ⌊b - a + 1⌋ := Int.floor_nonneg.mpr h0
        have h2 : ((⌊b - a + 1⌋ : ℤ) : ℚ) ≤ b - a + 1 := Int.floor_le _
        have h4 : ⌊b - a + 1⌋ < 1 := by
          by_contra hc
          push_neg at hc
          have : ((1 : ℤ) : ℚ) ≤ ((⌊b - a + 1⌋ : ℤ) : ℚ) := by exact_mod_cast hc
          push_cast at this
          linarith
        omega
      · rw [if_neg h0]
        push_neg at h0
        have hup : ⌈b - a + 1⌉ ≤ 0 := Int.ceil_le.mpr (by push_cast; linarith)
        have hdn : -1 < ⌈b - a + 1⌉ :=
          Int.lt_ceil.mpr (by push_cast; linarith)
        omega
    rw [scaleSequenceE]
    rw [if_neg (by omega : ¬ numScales a b < 0)]
    rw [scaleList_of_numScales_nonpos hz.le]

/-- Witness for C8: the amended statement applied at the invalid bounds
`a = 5, b = 0` (`sigma_min = 32`, `sigma_max = 1`), where generation fails. -/
theorem C8_invalid_sigma_witness :
    (0 : ℚ) < (5 : ℚ) ∧
      ((scaleSequenceE 5 0 = none ↔ (0 : ℚ) - 5 ≤ -2) ∧
       (-2 < (0 : ℚ) - 5 → scaleSequenceE 5 0 = some [])) :=
  ⟨by norm_num, C8_invalid_sigma_amended 5 0 (by norm_num)⟩

/-- Counterexample for C8 as stated: `sigma_min = 2 > sigma_max = 1` (log2
exponents `a = 1, b = 0`) is invalid input, yet the scale-sequence generation
returns a value (the empty sequence) instead of failing with any error. -/
theorem C8_invalid_sigma_counterexample :
    scaleSequenceE 1 0 = some [] ∧ (0 : ℚ) < (1 : ℚ) := by
  constructor
  · have h : numScales 1 0 = 0 := by norm_num [numScales, ratTrunc]
    rw [scaleSequenceE, if_neg (by omega : ¬ numScales 1 0 < 0),
      scaleList_of_numScales_nonpos h.le]
  · norm_num

/-- A 2-D image or feature slice: a rectangular grid of exact values standing
for the float32 pixels, `H` rows of `W` entries. -/
abbrev Grid : Type := List (List ℚ)

/-- Pixel read with numpy-style in-bounds semantics (`0` default is never
reached on the rectangular inputs the theorems quantify over). -/
def get2 (g : Grid) (i j : ℕ) : ℚ := (g.getD i []).getD j 0

/-- The grid `g` is rectangular with `H` rows and `W` columns. -/
def gridShape (g : Grid) (H W : ℕ) : Prop :=
  g.length = H ∧ ∀ r ∈ g, r.length = W

instance (g : Grid) (H W : ℕ) : Decidable (gridShape g H W) := by
  unfold gridShape
  infer_instance

/-- Builds a grid with the same row/column structure as `g`, with entry
`f i j` at row `i`, column `j`. -/
def mapIdx2 (g : Grid) (f : ℕ → ℕ → ℚ) : Grid :=
  (List.range g.length).map (fun i => (List.range ((g.getD i []).length)).map (f i))

/-- Exact model of 1-D `np.gradient` with unit spacing: central differences in
the interior, one-sided differences at the two boundaries. -/
def npGradient1 (v : List ℚ) : List ℚ :=
  (List.range v.length).map (fun i =>
    if v.length < 2 then 0
    else if i = 0 then v.getD 1 0 - v.getD 0 0
    else if i = v.length - 1 then v.getD i 0 - v.getD (i - 1) 0
    else (v.getD (i + 1) 0 - v.getD (i - 1) 0) / 2)

/-- Column `j` of a grid. -/
def colAt (g : Grid) (j : ℕ) : List ℚ := g.map (fun r => r.getD j 0)

/-- Model of `np.gradient(g, axis=0)`: the 1-D gradient applied down every
column. -/
def gradAxis0 (g : Grid) : Grid :=
  mapIdx2 g (fun i j => (npGradient1 (colAt g j)).getD i 0)

/-- Model of `np.gradient(g, axis=1)`: the 1-D gradient applied along every
row. -/
def gradAxis1 (g : Grid) : Grid := g.map npGradient1

/-- Modelled from the spec: `skimage.feature.hessian_matrix_eigvals` (not under
`src/`) applied to the three 2-D Hessian entry arrays.  Per §4.2 the solver is
per-pixel and carries no cross-pixel state, so it is the pixelwise lifting of
a scalar 2×2 symmetric eigen-solver `eig` (kept as a parameter here; its
spec-given closed form over ℝ is `hessianEigenpair` below). -/
def hessian_matrix_eigvals (eig : ℚ → ℚ → ℚ → ℚ × ℚ) (hrr hrc hcc : Grid) :
    Grid × Grid :=
  (mapIdx2 hrr (fun i j => (eig (get2 hrr i j) (get2 hrc i j) (get2 hcc i j)).1),
   mapIdx2 hrr (fun i j => (eig (get2 hrr i j) (get2 hrc i j) (get2 hcc i j)).2))

/-- Source `_texture_filter` for a 2-D channel: second derivatives of the
blurred image along the axis pairs `(0,0), (0,1), (1,1)` (gradient of the
gradient, `combinations_with_replacement`), then the Hessian eigenvalues. -/
def _texture_filter (eig : ℚ → ℚ → ℚ → ℚ × ℚ) (gaussian_filtered : Grid) :
    List Grid :=
  let d0 := gradAxis0 gaussian_filtered
  let d1 := gradAxis1 gaussian_filtered
  let e := hessian_matrix_eigvals eig (gradAxis0 d0) (gradAxis1 d0) (gradAxis1 d1)
  [e.1, e.2]

/-- The 2-D filter primitives the source imports from outside `src/`
(`skimage.filters.gaussian`, `skimage.filters.sobel`, `skimage.img_as_float32`
and the scalar core of `skimage.feature.hessian_matrix_eigvals`).  They are
parameters of the model; the theorems assume only what the spec guarantees of
them (shape preservation, purity).  `gaussian` receives the scale's log2
exponent `e` and stands for Gaussian smoothing with `sigma = 2 ^ e`. -/
structure Filters2 : Type where
  img_as_float32 : Grid → Grid
  gaussian : ℚ → Grid → Grid
  sobel : Grid → Grid
  eig2 : ℚ → ℚ → ℚ → ℚ × ℚ

/-- Source `_singlescale_basic_features_singlechannel` for a 2-D channel:
the Gaussian-blurred channel, then optionally intensity, edge and texture
slices in that fixed order. -/
def _singlescale_basic_features_singlechannel (F : Filters2) (img : Grid)
    (sigma : ℚ) (intensity edges texture : Bool) : List Grid :=
  let gaussian_filtered := F.gaussian sigma img
  (if intensity then [gaussian_filtered] else []) ++
    (if edges then [F.sobel gaussian_filtered] else []) ++
    (if texture then _texture_filter F.eig2 gaussian_filtered else [])

/-- One task result per task index: task `i` always computes `f i`, tasks
complete in the arbitrary order `order`, and results are collected keyed by
task index (exactly how `ThreadPoolExecutor.map` and `dask.compute` return
results in argument order, never in completion order).  `none` only when some
index below `n` was never executed, which cannot happen for a real schedule
(a permutation of the task indices). -/
def parMap {β : Type} (f : ℕ → β) (n : ℕ) (order : List ℕ) : Option (List β) :=
  collectSome ((List.range n).map (fun i =>
    List.lookup i (order.map (fun j => (j, f j)))))

/-- The per-scale fan-out of the source: one task per scale (in the descending
scale order), results flattened in task-index order. -/
def parScales {β : Type} (single : ℚ → List β) (es : List ℚ) (order : List ℕ) :
    Option (List β) :=
  (parMap (fun k => single (es.getD k 0)) es.length order).map List.flatten

/-- Source `_mutiscale_basic_features_singlechannel` (2-D channel): convert to
float32 working precision, build the descending scale sequence, fan out one
task per scale, and flatten the per-scale bundles in scale order. -/
def _mutiscale_basic_features_singlechannel (F : Filters2) (img : Grid)
    (intensity edges texture : Bool) (a b : ℚ) (order : List ℕ) :
    Option (List Grid) :=
  let img32 := F.img_as_float32 img
  (scaleSequenceE a b).bind (fun es =>
    parScales (fun s =>
      _singlescale_basic_features_singlechannel F img32 s intensity edges texture)
      es order)

/-- Reference sequential order of the same computation: scales processed in
the sampler's descending order, bundles concatenated in that order. -/
def _mutiscale_singlechannel_seq (F : Filters2) (img : Grid)
    (intensity edges texture : Bool) (a b : ℚ) : Option (List Grid) :=
  (scaleSequenceE a b).map (fun es =>
    (es.map (fun s =>
      _singlescale_basic_features_singlechannel F (F.img_as_float32 img) s
        intensity edges texture)).flatten)

/-- A 3-D array (shape `(s0, s1, s2)`): a list of grids along the first axis.
Used both for volumetric single-channel images and for 2-D multichannel
images, where the trailing axis holds the channels. -/
abbrev Vol : Type := List Grid

/-- Pixel read in a 3-D array. -/
def get3 (v : Vol) (i j k : ℕ) : ℚ := get2 (v.getD i []) j k

/-- Builds a 3-D array with the same structure as `v` and entry `f i j k`. -/
def mapIdx3 (v : Vol) (f : ℕ → ℕ → ℕ → ℚ) : Vol :=
  (List.range v.length).map (fun i => mapIdx2 (v.getD i []) (f i))

/-- The axis-0 fibre of a 3-D array through position `(j, k)`. -/
def pillar0 (v : Vol) (j k : ℕ) : List ℚ := v.map (fun g => get2 g j k)

/-- Model of `np.gradient(v, axis=0)` for 3-D arrays. -/
def gradVol0 (v : Vol) : Vol :=
  mapIdx3 v (fun i j k => (npGradient1 (pillar0 v j k)).getD i 0)

/-- Model of `np.gradient(v, axis=1)` for 3-D arrays. -/
def gradVol1 (v : Vol) : Vol := v.map gradAxis0

/-- Model of `np.gradient(v, axis=2)` for 3-D arrays. -/
def gradVol2 (v : Vol) : Vol := v.map gradAxis1

/-- Modelled from the spec: the 3-D case of
`skimage.feature.hessian_matrix_eigvals` (not under `src/`), the pixelwise
lifting of a 3×3 symmetric eigen-solver `eig` over the six Hessian entries in
`combinations_with_replacement` order. -/
def hessian_matrix_eigvals3 (eig : ℚ → ℚ → ℚ → ℚ → ℚ → ℚ → ℚ × ℚ × ℚ)
    (h00 h01 h02 h11 h12 h22 : Vol) : Vol × Vol × Vol :=
  (mapIdx3 h00 (fun i j k => (eig (get3 h00 i j k) (get3 h01 i j k) (get3 h02 i j k)
      (get3 h11 i j k) (get3 h12 i j k) (get3 h22 i j k)).1),
   mapIdx3 h00 (fun i j k => (eig (get3 h00 i j k) (get3 h01 i j k) (get3 h02 i j k)
      (get3 h11 i j k) (get3 h12 i j k) (get3 h22 i j k)).2.1),
   mapIdx3 h00 (fun i j k => (eig (get3 h00 i j k) (get3 h01 i j k) (get3 h02 i j k)
      (get3 h11 i j k) (get3 h12 i j k) (get3 h22 i j k)).2.2))

/-- Source `_texture_filter` on a 3-D channel: the six second derivatives for
axis pairs `(0,0), (0,1), (0,2), (1,1), (1,2), (2,2)`, then the three Hessian
eigenvalues. -/
def _texture_filter3 (eig : ℚ → ℚ → ℚ → ℚ → ℚ → ℚ → ℚ × ℚ × ℚ)
    (gaussian_filtered : Vol) : List Vol :=
  let d0 := gradVol0 gaussian_filtered
  let d1 := gradVol1 gaussian_filtered
  let d2 := gradVol2 gaussian_filtered
  let e := hessian_matrix_eigvals3 eig (gradVol0 d0) (gradVol1 d0) (gradVol2 d0)
    (gradVol1 d1) (gradVol2 d1) (gradVol2 d2)
  [e.1, e.2.1, e.2.2]

/-- The 3-D filter primitives imported from outside `src/`, as parameters
(cf. `Filters2`). -/
structure Filters3 : Type where
  img_as_float32 : Vol → Vol
  gaussian : ℚ → Vol → Vol
  sobel : Vol → Vol
  eig3 : ℚ → ℚ → ℚ → ℚ → ℚ → ℚ → ℚ × ℚ × ℚ

/-- Source `_singlescale_basic_features_singlechannel` on a 3-D channel. -/
def _singlescale_singlechannel3 (F : Filters3) (img : Vol) (sigma : ℚ)
    (intensity edges texture : Bool) : List Vol :=
  let gaussian_filtered := F.gaussian sigma img
  (if intensity then [gaussian_filtered] else []) ++
    (if edges then [F.sobel gaussian_filtered] else []) ++
    (if texture then _texture_filter3 F.eig3 gaussian_filtered else [])

/-- Source `_mutiscale_basic_features_singlechannel` on a 3-D channel. -/
def _mutiscale_singlechannel3 (F : Filters3) (img : Vol)
    (intensity edges texture : Bool) (a b : ℚ) (order : List ℕ) :
    Option (List Vol) :=
  let img32 := F.img_as_float32 img
  (scaleSequenceE a b).bind (fun es =>
    parScales (fun s =>
      _singlescale_singlechannel3 F img32 s intensity edges texture) es order)

/-- Reference sequential order for the 3-D channel computation. -/
def _mutiscale_singlechannel3_seq (F : Filters3) (img : Vol)
    (intensity edges texture : Bool) (a b : ℚ) : Option (List Vol) :=
  (scaleSequenceE a b).map (fun es =>
    (es.map (fun s =>
      _singlescale_singlechannel3 F (F.img_as_float32 img) s
        intensity edges texture)).flatten)

/-- An input image: 2-D (`ndim = 2`) or 3-D (`ndim = 3`). -/
inductive NpImage : Type where
  | twoD (g : Grid)
  | threeD (v : Vol)

/-- Number of array dimensions. -/
def NpImage.ndim : NpImage → ℕ
  | .twoD _ => 2
  | .threeD _ => 3

/-- Element dtype of the final stacked array. -/
inductive DType : Type where
  | float32
  deriving DecidableEq

/-- The feature slices of the final stack: 2-D slices for a 2-D spatial
domain, 3-D slices for a 3-D one. -/
inductive FeatData : Type where
  | twoD (fs : List Grid)
  | threeD (fs : List Vol)

/-- The final feature array, `np.array(features, dtype=np.float32)`. -/
structure FeatStack : Type where
  dtype : DType
  data : FeatData

/-- Size of the trailing (channel) axis of a 3-D image. -/
def lastAxisSize (v : Vol) : ℕ := ((v.headD []).headD []).length

/-- The channel slice `image[..., c]` of a 3-D channels-last image. -/
def lastAxisSlice (v : Vol) (c : ℕ) : Grid :=
  v.map (fun g => g.map (fun row => row.getD c 0))

/-- Source `multiscale_basic_features`: split the trailing channel axis only
when the image has at least 3 dimensions and `multichannel` is set (channels
processed in ascending order, sequentially); otherwise process the whole
image as a single channel.  `orders` gives each channel's task-completion
schedule. -/
def multiscale_basic_features (F2 : Filters2) (F3 : Filters3) (image : NpImage)
    (multichannel intensity edges texture : Bool) (a b : ℚ)
    (orders : ℕ → List ℕ) : Option FeatStack :=
  match image with
  | .threeD v =>
    if multichannel then
      (collectSome ((List.range (lastAxisSize v)).map (fun dim =>
        _mutiscale_basic_features_singlechannel F2 (lastAxisSlice v dim)
          intensity edges texture a b (orders dim)))).map
        (fun per => ⟨.float32, .twoD per.flatten⟩)
    else
      (_mutiscale_singlechannel3 F3 v intensity edges texture a b (orders 0)).map
        (fun fs => ⟨.float32, .threeD fs⟩)
  | .twoD g =>
    (_mutiscale_basic_features_singlechannel F2 g intensity edges texture a b
      (orders 0)).map (fun fs => ⟨.float32, .twoD fs⟩)

/-- Canonical sequential form of `multiscale_basic_features`: channels in
ascending order (outer), scales in the sampler's descending order (inner),
and inside each (channel, scale) pair the fixed flag order intensity, edges,
texture eigenvalues — no task schedule involved. -/
def multiscale_basic_features_seq (F2 : Filters2) (F3 : Filters3) (image : NpImage)
    (multichannel intensity edges texture : Bool) (a b : ℚ) : Option FeatStack :=
  match image with
  | .threeD v =>
    if multichannel then
      (collectSome ((List.range (lastAxisSize v)).map (fun dim =>
        _mutiscale_singlechannel_seq F2 (lastAxisSlice v dim)
          intensity edges texture a b))).map
        (fun per => ⟨.float32, .twoD per.flatten⟩)
    else
      (_mutiscale_singlechannel3_seq F3 v intensity edges texture a b).map
        (fun fs => ⟨.float32, .threeD fs⟩)
  | .twoD g =>
    (_mutiscale_singlechannel_seq F2 g intensity edges texture a b).map
      (fun fs => ⟨.float32, .twoD fs⟩)

theorem lookup_pairs {β : Type} (f : ℕ → β) (order : List ℕ) (i : ℕ) (h : i ∈ order) :
    List.lookup i (order.map (fun j => (j, f j))) = some (f i) := by
  induction order with
  | nil => simp at h
  | cons j js ih =>
    by_cases hij : i = j
    · subst hij
      simp [List.lookup]
    · have hmem : i ∈ js := by
        rcases List.mem_cons.mp h with h' | h'
        · exact absurd h' hij
        · exact h'
      have hbeq : (i == j) = false := by
        simp [hij]
      simp only [List.map_cons, List.lookup, hbeq]
      exact ih hmem

theorem parMap_perm {β : Type} (f : ℕ → β) (n : ℕ) {order : List ℕ}
    (h : order.Perm (List.range n)) :
    parMap f n order = some ((List.range n).map f) :=
  collectSome_map_some (fun i hi => lookup_pairs f order i (h.mem_iff.mpr hi))

theorem map_range_getD {β : Type} (g : ℚ → β) (l : List ℚ) :
    (List.range l.length).map (fun k => g (l.getD k 0)) = l.map g := by
  induction l with
  | nil => rfl
  | cons x xs ih =>
    rw [List.length_cons, List.range_succ_eq_map, List.map_cons, List.map_map,
      List.map_cons]
    congr 1

theorem parScales_perm {β : Type} (single : ℚ → List β) (es : List ℚ) {order : List ℕ}
    (h : order.Perm (List.range es.length)) :
    parScales single es order = some ((es.map single).flatten) := by
  unfold parScales
  rw [parMap_perm _ _ h, Option.map_some', map_range_getD single es]

theorem mutiscale_perm (F : Filters2) (img : Grid) (i e t : Bool) (a b : ℚ)
    {order : List ℕ} (h : order.Perm (List.range (scaleLen a b))) :
    _mutiscale_basic_features_singlechannel F img i e t a b order
      = _mutiscale_singlechannel_seq F img i e t a b := by
  unfold scaleLen at h
  unfold _mutiscale_basic_features_singlechannel _mutiscale_singlechannel_seq
  cases hse : scaleSequenceE a b with
  | none => simp
  | some es =>
    rw [hse] at h
    simp only [Option.getD_some] at h
    simp [parScales_perm _ es h]

theorem mutiscale3_perm (F : Filters3) (img : Vol) (i e t : Bool) (a b : ℚ)
    {order : List ℕ} (h : order.Perm (List.range (scaleLen a b))) :
    _mutiscale_singlechannel3 F img i e t a b order
      = _mutiscale_singlechannel3_seq F img i e t a b := by
  unfold scaleLen at h
  unfold _mutiscale_singlechannel3 _mutiscale_singlechannel3_seq
  cases hse : scaleSequenceE a b with
  | none => simp
  | some es =>
    rw [hse] at h
    simp only [Option.getD_some] at h
    simp [parScales_perm _ es h]

theorem multiscale_eq_seq (F2 : Filters2) (F3 : Filters3) (image : NpImage)
    (mc i e t : Bool) (a b : ℚ) {orders : ℕ → List ℕ}
    (h : ∀ c, (orders c).Perm (List.range (scaleLen a b))) :
    multiscale_basic_features F2 F3 image mc i e t a b orders
      = multiscale_basic_features_seq F2 F3 image mc i e t a b := by
  cases image with
  | twoD g =>
    simp [multiscale_basic_features, multiscale_basic_features_seq,
      mutiscale_perm F2 g i e t a b (h 0)]
  | threeD v =>
    cases mc with
    | false =>
      simp [multiscale_basic_features, multiscale_basic_features_seq,
        mutiscale3_perm F3 v i e t a b (h 0)]
    | true =>
      simp only [multiscale_basic_features, multiscale_basic_features_seq, if_pos]
      have hch : ∀ dim ∈ List.range (lastAxisSize v),
          _mutiscale_basic_features_singlechannel F2 (lastAxisSlice v dim)
            i e t a b (orders dim)
            = _mutiscale_singlechannel_seq F2 (lastAxisSlice v dim) i e t a b :=
        fun dim _ => mutiscale_perm F2 (lastAxisSlice v dim) i e t a b (h dim)
      rw [List.map_congr_left hch]

/-- C2: the feature stack is identical for any two task-completion schedules
(in particular for the schedules produced by 1 worker and by 8 workers), and
it always equals the canonical sequential form: channels ascending (outer),
scales in the sampler's descending order (inner), and within each
(channel, scale) pair the fixed flag order intensity, edges, texture
eigenvalues — independent of task completion order. -/
theorem C2_parallel_determinism (F2 : Filters2) (F3 : Filters3) (image : NpImage)
    (mc i e t : Bool) (a b : ℚ) (orders ordersAlt : ℕ → List ℕ)
    (h : ∀ c, (orders c).Perm (List.range (scaleLen a b)))
    (h' : ∀ c, (ordersAlt c).Perm (List.range (scaleLen a b))) :
    multiscale_basic_features F2 F3 image mc i e t a b orders
      = multiscale_basic_features F2 F3 image mc i e t a b ordersAlt ∧
    multiscale_basic_features F2 F3 image mc i e t a b orders
      = multiscale_basic_features_seq F2 F3 image mc i e t a b :=
  ⟨(multiscale_eq_seq F2 F3 image mc i e t a b h).trans
      (multiscale_eq_seq F2 F3 image mc i e t a b h').symm,
    multiscale_eq_seq F2 F3 image mc i e t a b h⟩

/-- Trivial concrete filter instances used by the closed witnesses (any
shape-preserving functions qualify; the theorems quantify over all of them). -/
def idFilters2 : Filters2 :=
  ⟨fun g => g, fun _ g => g, fun g => g, fun x y _ => (x, y)⟩

/-- Trivial concrete 3-D filter instance for the closed witnesses. -/
def idFilters3 : Filters3 :=
  ⟨fun v => v, fun _ v => v, fun v => v, fun x y _ _ _ _ => (x, y, x)⟩

theorem scaleLen_zero_one : scaleLen 0 1 = 2 := by
  unfold scaleLen
  rw [scaleSequenceE_of_le (by norm_num : (0 : ℚ) ≤ 1)]
  rw [Option.getD_some, scaleList_length_of_le (by norm_num : (0 : ℚ) ≤ 1)]
  norm_num

/-- Witness for C2: two genuinely different completion schedules on a concrete
2×2 image with two scales give the same, canonical stack. -/
theorem C2_parallel_determinism_witness :
    (∀ _c : ℕ, ([1, 0] : List ℕ).Perm (List.range (scaleLen 0 1))) ∧
    (∀ _c : ℕ, ([0, 1] : List ℕ).Perm (List.range (scaleLen 0 1))) ∧
    (multiscale_basic_features idFilters2 idFilters3 (.twoD [[1, 2], [3, 4]])
        false true true true 0 1 (fun _ => [1, 0])
      = multiscale_basic_features idFilters2 idFilters3 (.twoD [[1, 2], [3, 4]])
        false true true true 0 1 (fun _ => [0, 1]) ∧
     multiscale_basic_features idFilters2 idFilters3 (.twoD [[1, 2], [3, 4]])
        false true true true 0 1 (fun _ => [1, 0])
      = multiscale_basic_features_seq idFilters2 idFilters3 (.twoD [[1, 2], [3, 4]])
        false true true true 0 1) := by
  have hp1 : ∀ c : ℕ, ([1, 0] : List ℕ).Perm (List.range (scaleLen 0 1)) := by
    intro _
    rw [scaleLen_zero_one]
    decide
  have hp2 : ∀ c : ℕ, ([0, 1] : List ℕ).Perm (List.range (scaleLen 0 1)) := by
    intro _
    rw [scaleLen_zero_one]
    decide
  exact ⟨hp1, hp2, C2_parallel_determinism idFilters2 idFilters3
    (.twoD [[1, 2], [3, 4]]) false true true true 0 1 _ _ hp1 hp2⟩

/-- C10: a 2-D image with `multichannel = True` takes the single-channel
branch (`image.ndim >= 3 and multichannel` is false): the trailing axis is
not split, the result is identical to `multichannel = False`, and on valid
sigma bounds with a real schedule no error is raised. -/
theorem C10_multichannel_2d (F2 : Filters2) (F3 : Filters3) (g : Grid)
    (intensity edges texture : Bool) (a b : ℚ) (orders : ℕ → List ℕ) :
    multiscale_basic_features F2 F3 (.twoD g) true intensity edges texture a b orders
      = multiscale_basic_features F2 F3 (.twoD g) false intensity edges texture a b
          orders ∧
    multiscale_basic_features F2 F3 (.twoD g) true intensity edges texture a b orders
      = (_mutiscale_basic_features_singlechannel F2 g intensity edges texture a b
          (orders 0)).map (fun fs => ⟨.float32, .twoD fs⟩) ∧
    (a ≤ b → (orders 0).Perm (List.range (scaleLen a b)) →
      (multiscale_basic_features F2 F3 (.twoD g) true intensity edges texture a b
        orders).isSome = true) := by
  refine ⟨rfl, rfl, fun hab hperm => ?_⟩
  have hseq := mutiscale_perm F2 g intensity edges texture a b hperm
  simp [multiscale_basic_features, hseq, _mutiscale_singlechannel_seq,
    scaleSequenceE_of_le hab]

/-- Witness for C10 at a concrete 2-D image and valid bounds. -/
theorem C10_multichannel_2d_witness :
    (0 : ℚ) ≤ 1 ∧ (([1, 0] : List ℕ).Perm (List.range (scaleLen 0 1))) ∧
    (multiscale_basic_features idFilters2 idFilters3 (.twoD [[1, 2], [3, 4]])
        true true true true 0 1 (fun _ => [1, 0])
      = multiscale_basic_features idFilters2 idFilters3 (.twoD [[1, 2], [3, 4]])
        false true true true 0 1 (fun _ => [1, 0]) ∧
     multiscale_basic_features idFilters2 idFilters3 (.twoD [[1, 2], [3, 4]])
        true true true true 0 1 (fun _ => [1, 0])
      = (_mutiscale_basic_features_singlechannel idFilters2 [[1, 2], [3, 4]]
          true true true 0 1 [1, 0]).map (fun fs => ⟨.float32, .twoD fs⟩) ∧
     ((0 : ℚ) ≤ 1 → ([1, 0] : List ℕ).Perm (List.range (scaleLen 0 1)) →
      (multiscale_basic_features idFilters2 idFilters3 (.twoD [[1, 2], [3, 4]])
        true true true true 0 1 (fun _ => [1, 0])).isSome = true)) := by
  have hab : (0 : ℚ) ≤ 1 := by norm_num
  have hperm : ([1, 0] : List ℕ).Perm (List.range (scaleLen 0 1)) := by
    rw [scaleLen_zero_one]
    decide
  exact ⟨hab, hperm, C10_multichannel_2d idFilters2 idFilters3 [[1, 2], [3, 4]]
    true true true 0 1 (fun _ => [1, 0])⟩

theorem gridShape_mapIdx2 {g : Grid} {H W : ℕ} (hg : gridShape g H W)
    (f : ℕ → ℕ → ℚ) : gridShape (mapIdx2 g f) H W := by
  obtain ⟨hlen, hrow⟩ := hg
  constructor
  · simp [mapIdx2, hlen]
  · intro r hr
    simp only [mapIdx2, List.mem_map, List.mem_range] at hr
    obtain ⟨i, hi, rfl⟩ := hr
    rw [List.length_map, List.length_range]
    have hmem : g.getD i [] ∈ g := by
      rw [List.getD_eq_getElem g [] hi]
      exact List.getElem_mem hi
    exact hrow _ hmem

theorem npGradient1_length (v : List ℚ) : (npGradient1 v).length = v.length := by
  simp [npGradient1]

theorem gridShape_gradAxis0 {g : Grid} {H W : ℕ} (hg : gridShape g H W) :
    gridShape (gradAxis0 g) H W :=
  gridShape_mapIdx2 hg _

theorem gridShape_gradAxis1 {g : Grid} {H W : ℕ} (hg : gridShape g H W) :
    gridShape (gradAxis1 g) H W := by
  obtain ⟨hlen, hrow⟩ := hg
  constructor
  · simp [gradAxis1, hlen]
  · intro r hr
    simp only [gradAxis1, List.mem_map] at hr
    obtain ⟨r0, hr0, rfl⟩ := hr
    rw [npGradient1_length]
    exact hrow r0 hr0

theorem texture_filter_shape {eig : ℚ → ℚ → ℚ → ℚ × ℚ} {g : Grid} {H W : ℕ}
    (hg : gridShape g H W) : ∀ x ∈ _texture_filter eig g, gridShape x H W := by
  intro x hx
  simp only [_texture_filter, hessian_matrix_eigvals, List.mem_cons,
    List.not_mem_nil, or_false] at hx
  have hbase : gridShape (gradAxis0 (gradAxis0 g)) H W :=
    gridShape_gradAxis0 (gridShape_gradAxis0 hg)
  rcases hx with rfl | rfl
  · exact gridShape_mapIdx2 hbase _
  · exact gridShape_mapIdx2 hbase _

theorem singlescale_shape_true (F : Filters2) {img : Grid} {H W : ℕ}
    (himg : gridShape img H W)
    (hgauss : ∀ s x, gridShape x H W → gridShape (F.gaussian s x) H W)
    (hsobel : ∀ x, gridShape x H W → gridShape (F.sobel x) H W) (s : ℚ) :
    ∀ x ∈ _singlescale_basic_features_singlechannel F img s true true true,
      gridShape x H W := by
  intro x hx
  have hblur : gridShape (F.gaussian s img) H W := hgauss s img himg
  simp only [_singlescale_basic_features_singlechannel, if_pos, List.cons_append,
    List.nil_append, List.mem_cons] at hx
  rcases hx with rfl | rfl | hx
  · exact hblur
  · exact hsobel _ hblur
  · exact texture_filter_shape hblur x hx

theorem singlescale_length_true (F : Filters2) (img : Grid) (s : ℚ) :
    (_singlescale_basic_features_singlechannel F img s true true true).length = 4 :=
  rfl

theorem length_flatten_const {β : Type} {l : List (List β)} {c : ℕ}
    (H : ∀ x ∈ l, x.length = c) : l.flatten.length = c * l.length := by
  induction l with
  | nil => simp
  | cons x xs ih =>
    rw [List.flatten_cons, List.length_append, H x (List.mem_cons_self x xs),
      ih (fun y hy => H y (List.mem_cons_of_mem x hy)), List.length_cons]
    ring

/-- C1: on a 2-D single-channel image of shape `(H, W)` with all three feature
flags enabled and valid sigma bounds, `multiscale_basic_features` succeeds and
returns a float32 stack of `n_scales * (1 + 1 + 2)` slices, each of shape
`(H, W)` — i.e. an array of shape `(F, H, W)` with
`F = n_scales * (1 + 1 + 2)`.  The filter primitives imported from outside
`src/` are assumed shape-preserving, as the spec states. -/
theorem C1_feature_stack_shape (F2 : Filters2) (F3 : Filters3) (g : Grid)
    (H W : ℕ) (mc : Bool) (a b : ℚ) (orders : ℕ → List ℕ)
    (himg : gridShape g H W)
    (hf32 : ∀ x, gridShape x H W → gridShape (F2.img_as_float32 x) H W)
    (hgauss : ∀ s x, gridShape x H W → gridShape (F2.gaussian s x) H W)
    (hsobel : ∀ x, gridShape x H W → gridShape (F2.sobel x) H W)
    (hab : a ≤ b) (hperm : (orders 0).Perm (List.range (scaleLen a b))) :
    ∃ fs : List Grid,
      multiscale_basic_features F2 F3 (.twoD g) mc true true true a b orders
        = some ⟨.float32, .twoD fs⟩ ∧
      fs.length = ((⌊b - a⌋).toNat + 1) * (1 + 1 + 2) ∧
      ∀ x ∈ fs, gridShape x H W := by
  have hseq := mutiscale_perm F2 g true true true a b hperm
  have hse := scaleSequenceE_of_le hab
  refine ⟨((scaleList a b).map (fun s =>
      _singlescale_basic_features_singlechannel F2 (F2.img_as_float32 g) s
        true true true)).flatten, ?_, ?_, ?_⟩
  · cases mc with
    | true =>
      simp [multiscale_basic_features, hseq, _mutiscale_singlechannel_seq, hse]
    | false =>
      simp [multiscale_basic_features, hseq, _mutiscale_singlechannel_seq, hse]
  · rw [length_flatten_const (c := 4)]
    · rw [List.length_map, scaleList_length_of_le hab]
      ring
    · intro x hx
      rw [List.mem_map] at hx
      obtain ⟨s, _, rfl⟩ := hx
      exact singlescale_length_true F2 _ s
  · intro x hx
    rw [List.mem_flatten] at hx
    obtain ⟨bundle, hb, hxb⟩ := hx
    rw [List.mem_map] at hb
    obtain ⟨s, _, rfl⟩ := hb
    exact singlescale_shape_true F2 (hf32 g himg) hgauss hsobel s x hxb

/-- Witness for C1: a concrete 2×2 image, exponents `a = 0, b = 1`
(`sigma_min = 1`, `sigma_max = 2`, so 2 scales and `F = 8`), and a
non-sequential completion schedule. -/
theorem C1_feature_stack_shape_witness :
    gridShape [[1, 2], [3, 4]] 2 2 ∧ (0 : ℚ) ≤ 1 ∧
    ([1, 0] : List ℕ).Perm (List.range (scaleLen 0 1)) ∧
    (∃ fs : List Grid,
      multiscale_basic_features idFilters2 idFilters3 (.twoD [[1, 2], [3, 4]])
        true true true true 0 1 (fun _ => [1, 0]) = some ⟨.float32, .twoD fs⟩ ∧
      fs.length = ((⌊(1 : ℚ) - 0⌋).toNat + 1) * (1 + 1 + 2) ∧
      ∀ x ∈ fs, gridShape x 2 2) := by
  have hshape : gridShape [[1, 2], [3, 4]] 2 2 := by decide
  have hab : (0 : ℚ) ≤ 1 := by norm_num
  have hperm : ([1, 0] : List ℕ).Perm (List.range (scaleLen 0 1)) := by
    rw [scaleLen_zero_one]
    decide
  exact ⟨hshape, hab, hperm,
    C1_feature_stack_shape idFilters2 idFilters3 [[1, 2], [3, 4]] 2 2 true 0 1
      (fun _ => [1, 0]) hshape (fun _ h => h) (fun _ _ h => h) (fun _ h => h)
      hab hperm⟩

/-- The classifier capability (external collaborator): an opaque fitted-state
type `γ`, the `unfitted → fitted` lifecycle as `fitState : Option γ`, a `fit`
implementation producing a fitted state from a design matrix and labels, and
a per-row prediction (scikit-learn's `predict` maps each sample row
independently to a class). -/
structure Classifier (γ : Type) : Type where
  fitState : Option γ
  fitImpl : List (List ℚ) → List ℤ → γ
  predictRow : γ → List ℚ → ℤ

/-- The capability's batch `predict`: fails (sklearn `NotFittedError`) when no
fitted state exists, otherwise predicts every row. -/
def Classifier.predict {γ : Type} (c : Classifier γ) (X : List (List ℚ)) :
    Option (List ℤ) :=
  c.fitState.map (fun st => X.map (c.predictRow st))

/-- The feature vector of pixel `p`: column `p` of the `(F, P)` feature matrix
(one entry per feature row). -/
def pixelVector (features : List (List ℚ)) (p : ℕ) : List ℚ :=
  features.map (fun row => row.getD p 0)

/-- Source `features[:, mask].T`: the feature vectors of the pixels whose
label satisfies `pred`, in ascending pixel order. -/
def maskCols (features : List (List ℚ)) (labels : List ℤ) (pred : ℤ → Bool) :
    List (List ℚ) :=
  ((List.range labels.length).filter (fun p => pred (labels.getD p 0))).map
    (pixelVector features)

/-- Source `output[labels == 0] = predicted_labels`: replace the zero entries
of `labels` with the predictions, in order; nonzero entries are kept. -/
def fillZeros : List ℤ → List ℤ → List ℤ
  | [], _ => []
  | l :: ls, ps =>
    if l = 0 then ps.headD 0 :: fillZeros ls (ps.drop 1) else l :: fillZeros ls ps

/-- The state `clf.fit(training_data, training_labels)` produces inside
`fit_segmenter`: the design matrix is the feature vectors of the `labels > 0`
pixels and the targets their labels. -/
def trainedState {γ : Type} (labels : List ℤ) (features : List (List ℚ))
    (clf : Classifier γ) : γ :=
  clf.fitImpl (maskCols features labels (fun l => decide (0 < l)))
    (labels.filter (fun l => decide (0 < l)))

/-- Source `fit_segmenter`: fit the classifier on the labelled pixels, predict
the `labels == 0` pixels, and return a copy of `labels` with the zeros
replaced by the predictions, together with the (now fitted) classifier. -/
def fit_segmenter {γ : Type} (labels : List ℤ) (features : List (List ℚ))
    (clf : Classifier γ) : List ℤ × Classifier γ :=
  let st := trainedState labels features clf
  let clfFitted : Classifier γ := { clf with fitState := some st }
  let data := maskCols features labels (fun l => decide (l = 0))
  let predicted_labels := data.map (clf.predictRow st)
  (fillZeros labels predicted_labels, clfFitted)

/-- A feature stack `(F, *S)` for the predict path: the spatial shape `S` and
the `F` rows, each holding `prod S` pixel values. -/
structure FeatureArr : Type where
  spatial : List ℕ
  data : List (List ℚ)
  deriving DecidableEq

/-- Result of `predict_segmenter`: the re-raised `NotFittedError`, or the
prediction reshaped to the spatial shape `S`. -/
inductive PResult : Type where
  | notFitted
  | ok (shape : List ℕ) (flat : List ℤ)
  deriving DecidableEq

/-- Source `predict_segmenter`: reshape `(F, *S)` to `(prod S, F)` (each pixel
one row), call `clf.predict`, re-raise `NotFittedError` when the classifier
has no fitted state, and reshape the 1-D prediction back to `S`. -/
def predict_segmenter {γ : Type} (features : FeatureArr) (clf : Classifier γ) :
    PResult :=
  let rows := (List.range features.spatial.prod).map (pixelVector features.data)
  match clf.predict rows with
  | none => .notFitted
  | some predicted_labels => .ok features.spatial predicted_labels

/-- Source `TrainableSegmenter`: the orchestrator holding a feature function,
a classifier, and the cached feature stack; `segmented_image` is set by
`fit`.  The image type `ι` is abstract. -/
structure TrainableSegmenter (ι γ : Type) : Type where
  features_func : ι → FeatureArr
  clf : Classifier γ
  features : Option FeatureArr
  segmented_image : Option (List ℤ)

/-- Source `TrainableSegmenter.compute_features`: cache the features of the
given image. -/
def TrainableSegmenter.compute_features {ι γ : Type} (s : TrainableSegmenter ι γ)
    (image : ι) : TrainableSegmenter ι γ :=
  { s with features := some (s.features_func image) }

/-- Outcome of `TrainableSegmenter.fit`: the crash when neither an image nor a
cached feature stack exists (`features_func(None)` raises), or the new state. -/
inductive FitOutcome (ι γ : Type) : Type where
  | errNoFeatures
  | ok (s : TrainableSegmenter ι γ)

/-- Segmented output of a fit outcome, when any. -/
def FitOutcome.segmentedOf {ι γ : Type} : FitOutcome ι γ → Option (List ℤ)
  | .errNoFeatures => none
  | .ok s => s.segmented_image

/-- Cached features of a fit outcome, when any. -/
def FitOutcome.featuresOf {ι γ : Type} : FitOutcome ι γ → Option FeatureArr
  | .errNoFeatures => none
  | .ok s => s.features

/-- Source `TrainableSegmenter.fit`: `if self.features is None:
self.compute_features(image)` — the cache, when present, is used as is (the
image argument is ignored); only an empty cache triggers computation, which
crashes when no image was supplied.  Then `fit_segmenter` runs on the chosen
features, the classifier is fitted in place, and the output is stored. -/
def TrainableSegmenter.fit {ι γ : Type} (s : TrainableSegmenter ι γ)
    (labels : List ℤ) (image : Option ι) : FitOutcome ι γ :=
  match s.features with
  | some f =>
    let r := fit_segmenter labels f.data s.clf
    .ok { s with clf := r.2, segmented_image := some r.1 }
  | none =>
    match image with
    | none => .errNoFeatures
    | some im =>
      let f := s.features_func im
      let r := fit_segmenter labels f.data s.clf
      .ok { s with features := some f, clf := r.2, segmented_image := some r.1 }

/-- Source `TrainableSegmenter.predict`: always computes fresh features for
the given image (the cache is neither read nor written) and delegates to
`predict_segmenter`. -/
def TrainableSegmenter.predict {ι γ : Type} (s : TrainableSegmenter ι γ)
    (image : ι) : PResult :=
  predict_segmenter (s.features_func image) s.clf

theorem fillZeros_length (labels ps : List ℤ) :
    (fillZeros labels ps).length = labels.length := by
  induction labels generalizing ps with
  | nil => rfl
  | cons l ls ih =>
    by_cases hl : l = 0 <;> simp [fillZeros, hl, ih]

theorem fillZeros_nonzero (labels : List ℤ) (ps : List ℤ) (i : ℕ)
    (h : labels.getD i 0 ≠ 0) :
    (fillZeros labels ps).getD i 0 = labels.getD i 0 := by
  induction labels generalizing ps i with
  | nil => simp at h
  | cons l ls ih =>
    cases i with
    | zero =>
      have hl : ¬ l = 0 := by simpa using h
      simp [fillZeros, hl]
    | succ n =>
      have hn : ls.getD n 0 ≠ 0 := by simpa using h
      by_cases hl : l = 0
      · simp only [fillZeros, if_pos hl, List.getD_cons_succ]
        exact ih _ _ hn
      · simp only [fillZeros, if_neg hl, List.getD_cons_succ]
        exact ih _ _ hn

/-- C5: the output of `fit_segmenter` has the shape of `labels` and keeps
every `labels > 0` pixel exactly (only `labels == 0` pixels are replaced by
predictions); the input `labels` itself is a pure value in this model and the
source writes only into `np.copy(labels)`. -/
theorem C5_fit_segmenter_preserves_labels {γ : Type} (clf : Classifier γ)
    (labels : List ℤ) (features : List (List ℚ)) :
    (fit_segmenter labels features clf).1.length = labels.length ∧
    ∀ i : ℕ, 0 < labels.getD i 0 →
      (fit_segmenter labels features clf).1.getD i 0 = labels.getD i 0 := by
  constructor
  · exact fillZeros_length labels _
  · intro i h
    exact fillZeros_nonzero labels _ i (by omega)

/-- Concrete classifier used by closed witnesses: ignores its training data
and predicts the constant class 7. -/
def constClf7 : Classifier Unit :=
  ⟨none, fun _ _ => (), fun _ _ => 7⟩

/-- Witness for C5 at a concrete labelled pixel. -/
theorem C5_fit_segmenter_preserves_labels_witness :
    (0 : ℤ) < ([2, 0] : List ℤ).getD 0 0 ∧
    (fit_segmenter [2, 0] [[10, 20]] constClf7).1.getD 0 0
      = ([2, 0] : List ℤ).getD 0 0 :=
  ⟨by decide,
    (C5_fit_segmenter_preserves_labels constClf7 [2, 0] [[10, 20]]).2 0 (by decide)⟩

/-- C7: `predict_segmenter` fails with the NotFitted error kind exactly when
the classifier has no fitted state; with a fitted state it reshapes the
`(F, *S)` stack to `(prod S, F)` rows (one feature vector per pixel), applies
the classifier's row prediction to every row, and returns the predictions
under the spatial shape `S`. -/
theorem C7_predict_segmenter_behaviour {γ : Type} :
    (∀ (features : FeatureArr) (clf : Classifier γ), clf.fitState = none →
      predict_segmenter features clf = .notFitted) ∧
    (∀ (features : FeatureArr) (clf : Classifier γ) (st : γ),
      clf.fitState = some st →
      predict_segmenter features clf
        = .ok features.spatial
            (((List.range features.spatial.prod).map (pixelVector features.data)).map
              (clf.predictRow st))) := by
  constructor
  · intro features clf h
    simp [predict_segmenter, Classifier.predict, h]
  · intro features clf st h
    simp [predict_segmenter, Classifier.predict, h]

/-- Witness for C7: an unfitted classifier fails, and fitting it first makes
the same call succeed with the transposed-and-predicted stack. -/
theorem C7_predict_segmenter_behaviour_witness :
    constClf7.fitState = none ∧
    predict_segmenter ⟨[2], [[10, 20]]⟩ constClf7 = .notFitted ∧
    ({ constClf7 with fitState := some () } : Classifier Unit).fitState = some () ∧
    predict_segmenter ⟨[2], [[10, 20]]⟩
        ({ constClf7 with fitState := some () } : Classifier Unit)
      = .ok ([2] : List ℕ)
          ((((List.range (List.prod ([2] : List ℕ))).map
              (pixelVector [[10, 20]])).map (constClf7.predictRow ()))) :=
  ⟨rfl,
    (C7_predict_segmenter_behaviour (γ := Unit)).1 ⟨[2], [[10, 20]]⟩ constClf7 rfl,
    rfl,
    (C7_predict_segmenter_behaviour (γ := Unit)).2 ⟨[2], [[10, 20]]⟩
      { constClf7 with fitState := some () } () rfl⟩

/-- C6 (amended): after `fit_segmenter`, running `predict_segmenter` on the
same features over the full image reproduces the training label at every
`labels > 0` pixel, **provided** the fitted classifier reproduces its
training set (predicts each training pixel's feature vector to that pixel's
label) — a property of the external classifier, not of the pipeline, and the
counterexample shows it cannot be dropped. -/
theorem C6_round_trip_amended {γ : Type} (clf : Classifier γ) (labels : List ℤ)
    (fa : FeatureArr) (hlen : labels.length = fa.spatial.prod)
    (hrepro : ∀ p : ℕ, p < labels.length → 0 < labels.getD p 0 →
      clf.predictRow (trainedState labels fa.data clf) (pixelVector fa.data p)
        = labels.getD p 0) :
    ∃ flat : List ℤ,
      predict_segmenter fa (fit_segmenter labels fa.data clf).2
        = .ok fa.spatial flat ∧
      ∀ p : ℕ, p < labels.length → 0 < labels.getD p 0 →
        flat.getD p 0 = labels.getD p 0 := by
  refine ⟨((List.range fa.spatial.prod).map (pixelVector fa.data)).map
      (clf.predictRow (trainedState labels fa.data clf)), ?_, ?_⟩
  · simp [predict_segmenter, Classifier.predict, fit_segmenter]
  · intro p hp hpos
    have hplt : p < fa.spatial.prod := hlen ▸ hp
    have hlt : p < (((List.range fa.spatial.prod).map (pixelVector fa.data)).map
        (clf.predictRow (trainedState labels fa.data clf))).length := by
      simp [hplt]
    rw [List.getD_eq_getElem _ _ hlt]
    simp only [List.getElem_map, List.getElem_range]
    exact hrepro p hp hpos

/-- Constant classifier for the C6 counterexample: predicts class 1 whatever
its training set was. -/
def constClf1 : Classifier Unit :=
  ⟨none, fun _ _ => (), fun _ _ => 1⟩

/-- Counterexample for C6 as stated: with the conforming (fit/predict)
classifier that constantly predicts 1, the pixel labelled 2 gets prediction 1
from the full-image `predict_segmenter` pass — the round trip does not
reproduce training labels for every classifier. -/
theorem C6_round_trip_counterexample :
    predict_segmenter ⟨[2], [[10, 20]]⟩ (fit_segmenter [2, 0] [[10, 20]] constClf1).2
      = .ok [2] [1, 1] ∧
    ([2, 0] : List ℤ).getD 0 0 = 2 ∧ (1 : ℤ) ≠ 2 := by
  decide

/-- Interpolating classifier for the C6 witness: predicts class 2 for the
feature vector `[10]` (the training pixel) and class 5 otherwise. -/
def memoClf : Classifier Unit :=
  ⟨none, fun _ _ => (), fun _ v => if v = [10] then 2 else 5⟩

/-- Witness for C6: the amended statement applied to a classifier that does
reproduce its training set. -/
theorem C6_round_trip_amended_witness :
    (([2, 0] : List ℤ).length = List.prod ([2] : List ℕ)) ∧
    (∀ p : ℕ, p < ([2, 0] : List ℤ).length → 0 < ([2, 0] : List ℤ).getD p 0 →
      memoClf.predictRow (trainedState [2, 0] [[10, 20]] memoClf)
          (pixelVector [[10, 20]] p) = ([2, 0] : List ℤ).getD p 0) ∧
    (∃ flat : List ℤ,
      predict_segmenter ⟨[2], [[10, 20]]⟩
          (fit_segmenter [2, 0] [[10, 20]] memoClf).2
        = .ok ([2] : List ℕ) flat ∧
      ∀ p : ℕ, p < ([2, 0] : List ℤ).length → 0 < ([2, 0] : List ℤ).getD p 0 →
        flat.getD p 0 = ([2, 0] : List ℤ).getD p 0) := by
  have h1 : (([2, 0] : List ℤ).length = List.prod ([2] : List ℕ)) := by decide
  have h2 : ∀ p : ℕ, p < ([2, 0] : List ℤ).length → 0 < ([2, 0] : List ℤ).getD p 0 →
      memoClf.predictRow (trainedState [2, 0] [[10, 20]] memoClf)
          (pixelVector [[10, 20]] p) = ([2, 0] : List ℤ).getD p 0 := by
    decide
  exact ⟨h1, h2, C6_round_trip_amended memoClf [2, 0] ⟨[2], [[10, 20]]⟩ h1 h2⟩

/-- C9 (amended): the cached FeatureStack is **not** invalidated when a new
image is supplied — `fit` uses the cache whenever it exists and only computes
features (from the given image) when the cache is empty; `fit` fails when
neither a cache nor an image exists; and `predict` always recomputes features
from its image, neither reading nor writing the cache. -/
theorem C9_orchestrator_cache_amended {ι γ : Type} (s : TrainableSegmenter ι γ)
    (labels : List ℤ) (img : ι) :
    (∀ f : FeatureArr, s.features = some f → ∀ imgOpt : Option ι,
      s.fit labels imgOpt = .ok { s with
        clf := (fit_segmenter labels f.data s.clf).2,
        segmented_image := some (fit_segmenter labels f.data s.clf).1 }) ∧
    (s.features = none → s.fit labels none = .errNoFeatures) ∧
    (s.features = none → s.fit labels (some img) = .ok { s with
        features := some (s.features_func img),
        clf := (fit_segmenter labels (s.features_func img).data s.clf).2,
        segmented_image :=
          some (fit_segmenter labels (s.features_func img).data s.clf).1 }) ∧
    s.predict img = predict_segmenter (s.features_func img) s.clf := by
  refine ⟨?_, ?_, ?_, rfl⟩
  · intro f hf imgOpt
    simp [TrainableSegmenter.fit, hf]
  · intro hf
    simp [TrainableSegmenter.fit, hf]
  · intro hf
    simp [TrainableSegmenter.fit, hf]

/-- Feature function for the C9 example states: the features of image `q` are
the 1-feature stack `[[q, q]]` over two pixels, so they identify the image. -/
def exFeatFn : ℚ → FeatureArr := fun q => ⟨[2], [[q, q]]⟩

/-- Classifier for the C9 example: predicts 2 on feature vectors from image 2
and 1 otherwise. -/
def exClf9 : Classifier Unit :=
  ⟨none, fun _ _ => (), fun _ v => if v.headD 0 = 2 then 2 else 1⟩

/-- Orchestrator state holding a cached feature stack computed from image 1. -/
def exSeg : TrainableSegmenter ℚ Unit := ⟨exFeatFn, exClf9, some (exFeatFn 1), none⟩

/-- Counterexample for C9 as stated: with features of image 1 cached, calling
`fit(labels, image=2)` keeps and uses the stale image-1 features — the
segmentation is `[1, 1]`, while recomputation from image 2 (forced here by
emptying the cache) yields `[1, 2]`, and the cache still holds the image-1
features afterwards.  Supplying a new image does not invalidate the cache. -/
theorem C9_cache_counterexample :
    (exSeg.fit [1, 0] (some 2)).segmentedOf = some [1, 1] ∧
    (({ exSeg with features := none } : TrainableSegmenter ℚ Unit).fit [1, 0]
      (some 2)).segmentedOf = some [1, 2] ∧
    ((some [1, 1] : Option (List ℤ)) ≠ some [1, 2]) ∧
    (exSeg.fit [1, 0] (some 2)).featuresOf = some (exFeatFn 1) ∧
    exFeatFn 1 ≠ exFeatFn 2 := by
  decide

/-- Witness for C9: the amended statement applied to the concrete cached and
uncached orchestrator states. -/
theorem C9_orchestrator_cache_amended_witness :
    exSeg.features = some (exFeatFn 1) ∧
    (exSeg.fit [1, 0] (some 2) = .ok { exSeg with
      clf := (fit_segmenter [1, 0] (exFeatFn 1).data exSeg.clf).2,
      segmented_image := some (fit_segmenter [1, 0] (exFeatFn 1).data exSeg.clf).1 }) ∧
    (({ exSeg with features := none } : TrainableSegmenter ℚ Unit).features = none) ∧
    (({ exSeg with features := none } : TrainableSegmenter ℚ Unit).fit [1, 0] none
      = .errNoFeatures) ∧
    exSeg.predict 2 = predict_segmenter (exSeg.features_func 2) exSeg.clf :=
  ⟨rfl,
    (C9_orchestrator_cache_amended exSeg [1, 0] 2).1 (exFeatFn 1) rfl (some 2),
    rfl,
    (C9_orchestrator_cache_amended ({ exSeg with features := none }) [1, 0] 2).2.1 rfl,
    (C9_orchestrator_cache_amended exSeg [1, 0] 2).2.2.2⟩

/-- Modelled from the spec: the scalar core of the HessianEigenSolver
(`skimage.feature.hessian_matrix_eigvals`, not under `src/`) for `k = 2`,
§4.2's closed form `λ = (a+b)/2 ± sqrt(((a-b)/2)^2 + c^2)` for the symmetric
matrix with diagonal `a, b` and off-diagonal `c`, returned ascending by value
(smaller eigenvalue first).  Exact real arithmetic stands in for float32; the
square root forces the definition to be noncomputable. -/
noncomputable def hessianEigenpair (a b c : ℝ) : ℝ × ℝ :=
  ((a + b) / 2 - Real.sqrt (((a - b) / 2) ^ 2 + c ^ 2),
   (a + b) / 2 + Real.sqrt (((a - b) / 2) ^ 2 + c ^ 2))

/-- The per-pixel symmetric Hessian matrix with diagonal entries `a, b` and
off-diagonal entry `c`. -/
def hessMatrix (a b c : ℝ) : Matrix (Fin 2) (Fin 2) ℝ :=
  Matrix.of ![![a, c], ![c, b]]

/-- C3: for every pixel value triple `(a, b, c)` the solver returns exactly
the two eigenvalues of the symmetric matrix `[[a, c], [c, b]]` (the roots of
`det (M - x I) = 0`), sorted ascending by value; in particular on the
diagonal input `a = 5, b = 1, c = 0` it returns `(1, 5)`.  The per-pixel
independence is the pixelwise lifting `hessian_matrix_eigvals` used by
`_texture_filter`. -/
theorem C3_hessian_eigvals_ascending :
    (∀ a b c : ℝ,
      (hessianEigenpair a b c).1 ≤ (hessianEigenpair a b c).2 ∧
      ∀ x : ℝ,
        Matrix.det (hessMatrix a b c - x • (1 : Matrix (Fin 2) (Fin 2) ℝ)) = 0 ↔
          (x = (hessianEigenpair a b c).1 ∨ x = (hessianEigenpair a b c).2)) ∧
    hessianEigenpair 5 1 0 = (1, 5) := by
  constructor
  · intro a b c
    have hrad : (0 : ℝ) ≤ ((a - b) / 2) ^ 2 + c ^ 2 := by positivity
    have hs0 : 0 ≤ Real.sqrt (((a - b) / 2) ^ 2 + c ^ 2) := Real.sqrt_nonneg _
    have hs2 : Real.sqrt (((a - b) / 2) ^ 2 + c ^ 2) ^ 2 = ((a - b) / 2) ^ 2 + c ^ 2 :=
      Real.sq_sqrt hrad
    constructor
    · simp only [hessianEigenpair]
      linarith
    · intro x
      have hdet : Matrix.det (hessMatrix a b c - x • (1 : Matrix (Fin 2) (Fin 2) ℝ))
          = (x - (hessianEigenpair a b c).1) * (x - (hessianEigenpair a b c).2) := by
        rw [Matrix.det_fin_two]
        simp only [hessianEigenpair, hessMatrix, Matrix.sub_apply, Matrix.smul_apply,
          Matrix.one_apply, Matrix.of_apply, Matrix.cons_val', Matrix.cons_val_zero,
          Matrix.cons_val_one, Matrix.head_cons, Matrix.head_fin_const,
          Matrix.empty_val', Matrix.cons_val_fin_one]
        have expand : (x - ((a + b) / 2 - Real.sqrt (((a - b) / 2) ^ 2 + c ^ 2)))
            * (x - ((a + b) / 2 + Real.sqrt (((a - b) / 2) ^ 2 + c ^ 2)))
            = (x - (a + b) / 2) ^ 2 - Real.sqrt (((a - b) / 2) ^ 2 + c ^ 2) ^ 2 := by
          ring
        rw [expand, hs2]
        norm_num
        ring
      rw [hdet]
      constructor
      · intro h
        rcases mul_eq_zero.mp h with h' | h'
        · exact Or.inl (sub_eq_zero.mp h')
        · exact Or.inr (sub_eq_zero.mp h')
      · intro h
        rcases h with h' | h' <;> rw [h'] <;> simp
  · simp only [hessianEigenpair]
    rw [show (((5 : ℝ) - 1) / 2) ^ 2 + 0 ^ 2 = 2 ^ 2 from by norm_num]
    rw [Real.sqrt_sq (by norm_num : (0 : ℝ) ≤ 2)]
    norm_num

end TrainableSeg
